import Mathlib

/-!
Verification of the tokenring-ai/scheduler core.

Shallow embedding conventions:
* Instants are natural numbers. The utility layer (`getNextRunTime`,
  `checkDayConditions`) works in milliseconds since the Unix epoch, matching
  `moment(...).valueOf()`. The polling engine (`SchedulerService.ts`) works in
  seconds, matching `Date.now() / 1000`.
* Timezones are modelled as a single fixed-offset zone with zero offset and
  uniform 86400000 ms days (no DST); `startOf('day')`, `.hour(h)`, `.minute(m)`
  and `.second(s)` are modelled on top of that. moment's `.hour/.minute/.second`
  setters keep the millisecond field, which the model reproduces.
* `"HH:mm"` time-of-day strings (`after`/`before`, `from`/`to`) are represented
  by their parsed `(hour, minute)` pair, i.e. the result of
  `s.split(':').map(Number)`.
* JavaScript truthiness tests on optional strings/numbers are modelled
  explicitly: an optional string is truthy when present and nonempty, an
  optional number when present and nonzero.
-/

/-- Milliseconds in a day. -/
def msPerDay : Nat := 86400000

/-- `moment(t).startOf('day')` in the zero-offset model: floor to midnight. -/
def dayStart (t : Nat) : Nat := t / msPerDay * msPerDay

/-- Millisecond field of an instant (moment setters preserve it). -/
def msOf (t : Nat) : Nat := t % 1000

/-- `moment(t).hour(h).minute(m).second(s)`: same day, given wall-clock
fields, millisecond field preserved. -/
def setHMS (t : Nat) (h m s : Nat) : Nat :=
  dayStart t + h * 3600000 + m * 60000 + s * 1000 + msOf t

/-- Hour-of-day of an instant in milliseconds. -/
def hourOf (t : Nat) : Nat := t % msPerDay / 3600000

/-- Minute-of-hour of an instant in milliseconds. -/
def minuteOf (t : Nat) : Nat := t % 3600000 / 60000

/-- Second-of-minute of an instant in milliseconds. -/
def secondOf (t : Nat) : Nat := t % 60000 / 1000

/-- Day-of-month of a day count since the epoch (civil-from-days
conversion; 1970-01-01 is day 0). -/
def dayOfMonthOfDays (z : Nat) : Nat :=
  let z' := z + 719468
  let doe := z' % 146097
  let yoe := (doe - doe / 1460 + doe / 36524 - doe / 146096) / 365
  let doy := doe - (365 * yoe + yoe / 4 - yoe / 100)
  let mp := (5 * doy + 2) / 153
  doy - (153 * mp + 2) / 5 + 1

/-- `moment(t).date()` (calendar day of month) for a millisecond instant. -/
def dateOf (t : Nat) : Nat := dayOfMonthOfDays (t / msPerDay)

/-- Three-letter lowercase weekday abbreviation of a millisecond instant,
as produced by `now.format('ddd').toLowerCase()` (1970-01-01 was a
Thursday). -/
def weekdayAbbrev (t : Nat) : String :=
  match (t / msPerDay + 4) % 7 with
  | 0 => "sun"
  | 1 => "mon"
  | 2 => "tue"
  | 3 => "wed"
  | 4 => "thu"
  | 5 => "fri"
  | _ => "sat"

/-- Substring search on character lists: does `needle` occur contiguously? -/
def containsSub (needle : List Char) : List Char → Bool
  | [] => needle.isEmpty
  | x :: xs => needle.isPrefixOf (x :: xs) || containsSub needle xs

/-- JavaScript `haystack.includes(needle)`: substring containment. -/
def jsIncludes (haystack needle : String) : Bool :=
  containsSub needle.data haystack.data

/-- `s.toLowerCase()` (ASCII model), character by character. -/
def lowerStr (s : String) : String := String.mk (s.data.map Char.toLower)

/-- Truthiness of an optional JS string: present and nonempty. -/
def strTruthy (o : Option String) : Bool :=
  match o with
  | some s => !s.isEmpty
  | none => false

/-- Truthiness of an optional JS number: present and nonzero. -/
def numTruthy (o : Option Nat) : Bool :=
  match o with
  | some n => n != 0
  | none => false

/-! ## `src/utility/parseInterval.ts` -/

/-- Character class of the regex `\s` (ASCII whitespace model), by code
point: space, tab, LF, CR, VT, FF. -/
def isWsChar (c : Char) : Bool :=
  c.toNat == 32 || c.toNat == 9 || c.toNat == 10 || c.toNat == 13 ||
  c.toNat == 11 || c.toNat == 12

/-- Character class of the regex `\d`: `0`-`9`. -/
def isDigitChar (c : Char) : Bool := 48 ≤ c.toNat && c.toNat ≤ 57

/-- Character class of the regex `\w`: `[A-Za-z0-9_]`. -/
def isWordChar (c : Char) : Bool :=
  (97 ≤ c.toNat && c.toNat ≤ 122) || (65 ≤ c.toNat && c.toNat ≤ 90) ||
  isDigitChar c || c.toNat == 95

/-- `parseInt` on a digits-only capture. -/
def digitsToNat (l : List Char) : Nat :=
  l.foldl (fun acc c => acc * 10 + (c.toNat - '0'.toNat)) 0

/-- The `INTERVALS` unit table: unit word to its length in seconds. -/
def INTERVALS (u : String) : Option Nat :=
  if u = "second" || u = "seconds" then some 1
  else if u = "minute" || u = "minutes" then some 60
  else if u = "hour" || u = "hours" then some 3600
  else if u = "day" || u = "days" then some 86400
  else none

/-- `parseInterval` on the character list: the regex
`^\s*(\d+)\s+(\w+)\s*$` (greedy classes are exact here because the three
classes are pairwise disjoint where it matters), then the `INTERVALS`
lookup on the lowercased unit. Returns `parseInt(num) * multiplier`; the
table multipliers are all nonzero so the JS truthiness test on the
multiplier only rejects unknown units. -/
def parseIntervalChars (l : List Char) : Option Nat :=
  let l1 := l.dropWhile isWsChar
  let num := l1.takeWhile isDigitChar
  let l2 := l1.dropWhile isDigitChar
  if num.isEmpty then none
  else
    let sp := l2.takeWhile isWsChar
    let l3 := l2.dropWhile isWsChar
    if sp.isEmpty then none
    else
      let unit := l3.takeWhile isWordChar
      let l4 := l3.dropWhile isWordChar
      if unit.isEmpty then none
      else if !(l4.all isWsChar) then none
      else
        match INTERVALS (String.mk (unit.map Char.toLower)) with
        | some mult => some (digitsToNat num * mult)
        | none => none

/-- `parseInterval(interval: string): number | null`. -/
def parseInterval (s : String) : Option Nat := parseIntervalChars s.data

/-- The shape a string must have for `parseInterval` to succeed, stated
from the spec: optional whitespace, a digit run, whitespace, a unit word
known to `INTERVALS` (case-insensitively), optional trailing whitespace;
the result is the digit run's value times the unit's length in seconds. -/
def IntervalShape (s : String) (r : Nat) : Prop :=
  ∃ a b c d e m,
    s.data = a ++ b ++ c ++ d ++ e ∧
    (∀ x ∈ a, isWsChar x = true) ∧
    b ≠ [] ∧ (∀ x ∈ b, isDigitChar x = true) ∧
    c ≠ [] ∧ (∀ x ∈ c, isWsChar x = true) ∧
    d ≠ [] ∧ (∀ x ∈ d, isWordChar x = true) ∧
    (∀ x ∈ e, isWsChar x = true) ∧
    INTERVALS (String.mk (d.map Char.toLower)) = some m ∧
    r = digitsToNat b * m

/-! ## `src/schema.ts` task shape as read by `src/utility/getNextRunTime.ts`
and the watch-based scheduler (`src/unnamed/part_009`). -/

structure ScheduledTask where
  agentType : String := ""
  /-- `repeat`: interval string for recurring tasks (`repeat` is a Lean
  keyword, hence the trailing underscore). -/
  repeat_ : Option String := none
  /-- `after`: `"HH:mm"` window start, as its parsed `(hour, minute)`. -/
  after : Option (Nat × Nat) := none
  /-- `before`: `"HH:mm"` window end, as its parsed `(hour, minute)`. -/
  before : Option (Nat × Nat) := none
  on_ : Option String := none
  dayOfMonth : Option Nat := none
  lastRunTime : Nat := 0
  noLongerThan : Option String := none
  several : Bool := false
  message : String := ""
deriving Repr, DecidableEq

/-! ## `src/utility/checkDayConditions.ts` -/

/-- `checkDayConditions(task, now)`: day-of-month equality and weekday
substring containment (`task.on_.toLowerCase().includes(weekDay)`); an
empty `on` string is falsy in JS and skips the weekday check. -/
def checkDayConditions (task : ScheduledTask) (now : Nat) : Bool :=
  (match task.dayOfMonth with
   | some d => d == dateOf now
   | none => true) &&
  (match task.on_ with
   | some s => s.isEmpty || jsIncludes (lowerStr s) (weekdayAbbrev now)
   | none => true)

/-! ## `src/utility/getNextRunTime.ts` -/

/-- `MAX_DAYS_AHEAD`. -/
def MAX_DAYS_AHEAD : Nat := 30

/-- The `task.after` adjustment inside the day loop: if the candidate is
before the `after` wall-clock time of its day, move it there. -/
def applyAfter (task : ScheduledTask) (checkDay : Nat) : Nat :=
  match task.after with
  | some (ah, am) =>
      let afterTime := setHMS checkDay ah am 0
      if checkDay < afterTime then afterTime else checkDay
  | none => checkDay

/-- The `task.before` rejection inside the day loop: the day is skipped
when the candidate `isAfter` the `before` wall-clock time (seconds set to
0, milliseconds preserved) of its day. -/
def rejectedByBefore (task : ScheduledTask) (checkDay : Nat) : Bool :=
  match task.before with
  | some (bh, bm) => decide (setHMS checkDay bh bm 0 < checkDay)
  | none => false

/-- The candidate instant examined at loop offset `off`:
`checkDay = earliestRunTime.clone()`, then for `daysOffset > 0`
`.add(daysOffset, 'days').startOf('day')`. -/
def dayCandidate (earliest off : Nat) : Nat :=
  if off = 0 then earliest else dayStart (earliest + off * msPerDay)

/-- The `for (daysOffset = 0; daysOffset <= MAX_DAYS_AHEAD; ...)` loop of
`getNextRunTime`, with `fuel` remaining iterations. -/
def dayWalk (task : ScheduledTask) (now earliest : Nat) : Nat → Nat → Option Nat
  | _, 0 => none
  | off, fuel + 1 =>
    if !checkDayConditions task (dayCandidate earliest off) then
      dayWalk task now earliest (off + 1) fuel
    else
      let cd := applyAfter task (dayCandidate earliest off)
      if rejectedByBefore task cd then
        dayWalk task now earliest (off + 1) fuel
      else if cd < now then some now else some cd

/-- `getNextRunTime(task): number | null`, with the implicit `moment.tz(tz)`
current time made an explicit `now` parameter. `if (task.repeat)` is a JS
truthiness test; `if (!interval)` rejects both a failed parse and a parsed
value of `0`; `task.lastRunTime ? ... : now` treats the schema default `0`
as unset. A task without a truthy `repeat` takes the daily branch. -/
def getNextRunTime (task : ScheduledTask) (now : Nat) : Option Nat :=
  if strTruthy task.repeat_ then
    match parseInterval (task.repeat_.getD "") with
    | none => none
    | some i =>
      if i = 0 then none
      else
        dayWalk task now
          (if task.lastRunTime ≠ 0 then task.lastRunTime + i * 1000 else now)
          0 (MAX_DAYS_AHEAD + 1)
  else
    dayWalk task now
      (if task.lastRunTime ≠ 0 then dayStart (task.lastRunTime + msPerDay) else now)
      0 (MAX_DAYS_AHEAD + 1)

/-! ## Association-list model of JS `Map` -/

def lookupA {α : Type} (l : List (String × α)) (k : String) : Option α :=
  (l.find? (fun p => p.1 == k)).map (fun p => p.2)

def eraseA {α : Type} (l : List (String × α)) (k : String) : List (String × α) :=
  l.filter (fun p => p.1 != k)

def setA {α : Type} (l : List (String × α)) (k : String) (v : α) : List (String × α) :=
  if (l.find? (fun p => p.1 == k)).isSome then
    l.map (fun p => if p.1 == k then (k, v) else p)
  else l ++ [(k, v)]

/-! ## `src/SchedulerService.ts` — the polling engine.

Times here are in seconds (`Date.now() / 1000`); the fractional part of the
JS division is immaterial to the control flow modelled. The service's
private `parseInterval` method is textually identical to
`src/utility/parseInterval.ts`, so the model reuses `parseInterval`. -/

namespace SchedulerService

/-- Seconds in a day. -/
def secPerDay : Nat := 86400

/-- `startOf('day')` at second granularity. -/
def daySec (t : Nat) : Nat := t / secPerDay * secPerDay

/-- `moment(t).hour(h).minute(m).second(s)` at second granularity (the
millisecond field cancels against the compared instant, which shares it). -/
def setHMSsec (t : Nat) (h m s : Nat) : Nat :=
  daySec t + h * 3600 + m * 60 + s

/-- `moment(t).date()` at second granularity. -/
def dateOfSec (t : Nat) : Nat := dayOfMonthOfDays (t / secPerDay)

/-- Hour-of-day at second granularity. -/
def hourOfSec (t : Nat) : Nat := t % secPerDay / 3600

/-- Minute-of-hour at second granularity. -/
def minuteOfSec (t : Nat) : Nat := t % 3600 / 60

/-- Weekday abbreviation at second granularity. -/
def weekdayAbbrevSec (t : Nat) : String := weekdayAbbrev (t * 1000)

/-- `ScheduleTaskSchema` of `src/SchedulerService.ts` (`from`/`to` are Lean
keywords or near-keywords, hence the trailing underscores; `"HH:mm"` strings
are represented by their parsed `(hour, minute)` pair). -/
structure ScheduleTask where
  name : String := ""
  agentType : String := ""
  every : Option String := none
  spaced : Option String := none
  once : Bool := false
  from_ : Option (Nat × Nat) := none
  to_ : Option (Nat × Nat) := none
  on_ : Option String := none
  dayOfMonth : Option Nat := none
  noLongerThan : Option String := none
  several : Bool := false
  message : String := ""
deriving Repr, DecidableEq

/-- Internal `TaskState` of `src/SchedulerService.ts`. -/
structure TaskState where
  nextRun : Option Nat := none
  lastRun : Option Nat := none
  lastDay : Option Nat := none
  isRunning : Bool := false
  startTime : Option Nat := none
  maxRunTime : Option Nat := none
deriving Repr, DecidableEq

/-- `checkTimeWindowConditions(task, now)`: reject when `now` is before the
`from` time (seconds set to 0) or after the `to` time (seconds set to 59). -/
def checkTimeWindowConditions (task : ScheduleTask) (now : Nat) : Bool :=
  (match task.from_ with
   | some (h, m) => decide (setHMSsec now h m 0 ≤ now)
   | none => true) &&
  (match task.to_ with
   | some (h, m) => decide (now ≤ setHMSsec now h m 59)
   | none => true)

/-- `checkDayConditions(task, now)` method of the service (same logic as
the utility, at second granularity). -/
def checkDayConditions (task : ScheduleTask) (now : Nat) : Bool :=
  (match task.dayOfMonth with
   | some d => d == dateOfSec now
   | none => true) &&
  (match task.on_ with
   | some s => s.isEmpty || jsIncludes (lowerStr s) (weekdayAbbrevSec now)
   | none => true)

/-- `checkTaskConditions(task, now)`. -/
def checkTaskConditions (task : ScheduleTask) (now : Nat) : Bool :=
  checkDayConditions task now && checkTimeWindowConditions task now

/-- `retimeEveryTask(task, state, now)`: only schedules inside the time
window; `nextRun = lastRun ? lastRun + interval : now + interval`, clamped
forward to `now + interval` when in the past. -/
def retimeEveryTask (task : ScheduleTask) (st : TaskState) (now : Nat) : TaskState :=
  if checkTimeWindowConditions task now then
    match parseInterval (task.every.getD "") with
    | some i =>
      if i = 0 then st
      else
        let n0 := if numTruthy st.lastRun then st.lastRun.getD 0 + i else now + i
        { st with nextRun := some (if n0 < now then now + i else n0) }
    | none => st
  else st

/-- `retimeSpacedTask(task, state)`: always `now + interval`. -/
def retimeSpacedTask (task : ScheduleTask) (st : TaskState) (now : Nat) : TaskState :=
  match parseInterval (task.spaced.getD "") with
  | some i => if i = 0 then st else { st with nextRun := some (now + i) }
  | none => st

/-- `retimeOnceTask(task, state, now)`. -/
def retimeOnceTask (task : ScheduleTask) (st : TaskState) (now : Nat) : TaskState :=
  let today := dateOfSec now
  if st.lastDay = some today then st
  else if !(checkDayConditions task now) then st
  else
    let hm := task.from_.getD (0, 0)
    let runTime := daySec now + hm.1 * 3600 + hm.2 * 60
    if runTime < now then
      if checkTimeWindowConditions task now then
        { st with lastDay := some today, nextRun := some now }
      else st
    else { st with lastDay := some today, nextRun := some runTime }

/-- `retimeTask`: dispatch on the (JS-truthy) recurrence mode. -/
def retimeTask (task : ScheduleTask) (st : TaskState) (now : Nat) : TaskState :=
  if strTruthy task.every then retimeEveryTask task st now
  else if strTruthy task.spaced then retimeSpacedTask task st now
  else if task.once then retimeOnceTask task st now
  else st

/-- The synchronous prefix of `runTask`: mark running, record the start
time, and derive the runtime ceiling `maxRunTime = startTime + maxRunSeconds`
from `noLongerThan`. -/
def runTaskStart (task : ScheduleTask) (st : TaskState) (now : Nat) : TaskState :=
  let st1 := { st with isRunning := true, startTime := some now }
  match task.noLongerThan with
  | some s =>
    if s.isEmpty then st1
    else
      match parseInterval s with
      | some k => if k = 0 then st1 else { st1 with maxRunTime := some (now + k) }
      | none => st1
  | none => st1

/-- The overrun check of `runTasks` (lines 206-211): performed only when
the task is running with overlap disallowed; the emitted `serviceError` is
modelled as this Boolean. JS computes `now - (state.startTime || 0)` as a
possibly negative real; Nat subtraction clamps to 0 instead, which yields
the same comparison result against the nonzero `maxRunTime` admitted by
the truthiness guard. -/
def tickOverrunReport (task : ScheduleTask) (st : TaskState) (now : Nat) : Bool :=
  st.isRunning && !task.several &&
    (numTruthy st.maxRunTime && decide (now - st.startTime.getD 0 > st.maxRunTime.getD 0))

/-- The scheduler state for one task together with the number of in-flight
runner invocations (a ghost counter incremented at each launch). -/
structure SysState where
  st : TaskState
  inflight : Nat
deriving Repr, DecidableEq

/-- One polling iteration of `runTasks` for one task. A launch
(`trackPromise(() => this.runTask(i))`) is modelled atomically together
with `runTask`'s synchronous prefix, which is faithful to the
single-threaded event loop: the prefix runs before any other tick. -/
def tickTask (task : ScheduleTask) (s : SysState) (now : Nat) : SysState :=
  if s.st.isRunning && !task.several then s
  else
    let st1 := if !(numTruthy s.st.nextRun) then retimeTask task s.st now else s.st
    if numTruthy st1.nextRun && decide (st1.nextRun.getD 0 ≤ now) then
      if checkTaskConditions task now then
        { st := runTaskStart task { st1 with lastRun := some now, nextRun := none } now,
          inflight := s.inflight + 1 }
      else
        { s with st := retimeTask task { st1 with nextRun := none } now }
    else { s with st := st1 }

/-- Completion of one in-flight run: the `finally` block of `runTask`
(clear running state, reschedule `spaced` tasks); a no-op when nothing is
in flight. -/
def finishTask (task : ScheduleTask) (s : SysState) (now : Nat) : SysState :=
  if s.inflight = 0 then s
  else
    let st1 := { s.st with isRunning := false, startTime := none, maxRunTime := none }
    { st := if strTruthy task.spaced then retimeTask task st1 now else st1,
      inflight := s.inflight - 1 }

/-- Events observable by one task: a polling tick and a runner completion,
each carrying the current time. -/
inductive SchedEvent where
  | tick (now : Nat)
  | finish (now : Nat)
deriving Repr, DecidableEq

def stepEvent (task : ScheduleTask) (s : SysState) : SchedEvent → SysState
  | .tick now => tickTask task s now
  | .finish now => finishTask task s now

/-- The coupling invariant: the in-flight counter matches the `isRunning`
flag for a task with overlap disallowed. -/
def Coupled (s : SysState) : Prop :=
  s.inflight = if s.st.isRunning then 1 else 0

/-- The initial per-task state installed by the constructor
(`{ isRunning: false }`, nothing in flight). -/
def initSys : SysState := { st := {}, inflight := 0 }

/-- Run a sequence of events from the initial state. -/
def runEvents (task : ScheduleTask) (evs : List SchedEvent) : SysState :=
  evs.foldl (stepEvent task) initSys

end SchedulerService

/-! ## The watch-based scheduler of `src/unnamed/part_009`
(`watchTasks` / `removeTask` / `handleTaskFinished`), over the state slices
`src/state/scheduleExecutionState.ts` and `src/state/scheduleTaskState.ts`. -/

namespace WatchScheduler

inductive RunStatus where
  | pending
  | running
deriving Repr, DecidableEq

/-- `ExecutionScheduleEntry` of `src/state/scheduleExecutionState.ts`;
the `setTimeout` timer handle and the `AbortController` are modelled by
presence flags. -/
structure ExecutionScheduleEntry where
  nextRunTime : Option Nat := none
  status : RunStatus := .pending
  hasAbort : Bool := false
  hasTimer : Bool := false
  startTime : Option Nat := none
deriving Repr, DecidableEq

inductive HistStatus where
  | completed
  | failed
deriving Repr, DecidableEq

/-- `TaskRunHistory` of `src/state/scheduleTaskState.ts`. -/
structure TaskRunHistory where
  startTime : Nat
  endTime : Nat
  status : HistStatus
  message : String
deriving Repr, DecidableEq

/-- The two state slices of one scheduler agent: the task registry with its
per-task history (`ScheduleTaskState`) and the execution ledger
(`ScheduleExecutionState`). -/
structure SchedState where
  tasks : List (String × ScheduledTask) := []
  exec : List (String × ExecutionScheduleEntry) := []
  history : List (String × List TaskRunHistory) := []
deriving Repr, DecidableEq

/-- The body of the `watchTasks` reconciliation loop for a single task
(`src/unnamed/part_009` lines 397-421): a non-`pending` entry is skipped; a
`pending` entry whose computed due time changed is re-armed (timer present
iff the new due time is truthy); a missing entry is created only for a
truthy due time. -/
def watchEntry (task : ScheduledTask) (now : Nat) :
    Option ExecutionScheduleEntry → Option ExecutionScheduleEntry
  | some e =>
    if e.status ≠ .pending then some e
    else
      let nrt := getNextRunTime task now
      if e.nextRunTime ≠ nrt then
        some { e with nextRunTime := nrt, hasTimer := numTruthy nrt }
      else some e
  | none =>
    let nrt := getNextRunTime task now
    if numTruthy nrt then
      some { nextRunTime := nrt, status := .pending, hasTimer := numTruthy nrt }
    else none

/-- `removeTask(name)` (`src/unnamed/part_009` lines 372-390). The thrown
`Task not found` error is the second component; it is raised before any
mutation. An execution entry is deleted only when it holds a timer. -/
def removeTask (name : String) (s : SchedState) : SchedState × Option String :=
  match lookupA s.tasks name with
  | none => (s, some ("Task not found: " ++ name))
  | some _ =>
    let exec1 :=
      match lookupA s.exec name with
      | some e => if e.hasTimer then eraseA s.exec name else s.exec
      | none => s.exec
    ({ s with tasks := eraseA s.tasks name, exec := exec1 }, none)

/-- `handleTaskFinished(name, status, message)` (`src/unnamed/part_009`
lines 476-497): drop the execution entry, stamp the task's `lastRunTime`,
and push one history record (`startTime` falls back to 0 when the entry is
gone). -/
def handleTaskFinished (name : String) (status : HistStatus) (message : String)
    (now : Nat) (s : SchedState) : SchedState :=
  let entry := lookupA s.exec name
  let tasks1 :=
    match lookupA s.tasks name with
    | some t => setA s.tasks name { t with lastRunTime := now }
    | none => s.tasks
  let prev := (lookupA s.history name).getD []
  { tasks := tasks1,
    exec := eraseA s.exec name,
    history := setA s.history name (prev ++
      [{ startTime := (entry.bind (fun e => e.startTime)).getD 0,
         endTime := now, status := status, message := message }]) }

/-- Iterated completions of the same task. -/
def finishN (name : String) (now : Nat) : Nat → SchedState → SchedState
  | 0, s => s
  | n + 1, s => finishN name now n (handleTaskFinished name .completed "ok" now s)

end WatchScheduler

/-! # Theorems -/

/-! ## Generic list lemmas for the greedy regex classes -/

theorem dropWhile_head_not {α : Type} (p : α → Bool) :
    ∀ l : List α, ∀ x ∈ (l.dropWhile p).take 1, p x = false := by
  intro l
  induction l with
  | nil => intro x hx; simp at hx
  | cons a t ih =>
    intro x hx
    by_cases hpa : p a = true
    · rw [List.dropWhile_cons_of_pos hpa] at hx
      exact ih x hx
    · rw [List.dropWhile_cons_of_neg hpa] at hx
      simp at hx
      subst hx
      exact Bool.eq_false_iff.mpr hpa

theorem takeWhile_append_eq {α : Type} (p : α → Bool) (a b : List α)
    (ha : ∀ x ∈ a, p x = true) (hb : ∀ x ∈ b.take 1, p x = false) :
    (a ++ b).takeWhile p = a ∧ (a ++ b).dropWhile p = b := by
  induction a with
  | nil =>
    simp only [List.nil_append]
    cases b with
    | nil => simp
    | cons x t =>
      have hx : p x = false := hb x (by simp)
      rw [List.takeWhile_cons, List.dropWhile_cons]
      simp [hx]
  | cons c a ih =>
    have hc : p c = true := ha c (by simp)
    have ih' := ih (fun x hx => ha x (by simp [hx]))
    simp only [List.cons_append, List.takeWhile_cons, List.dropWhile_cons, hc]
    simp [ih'.1, ih'.2]

/-! ## Character-class disjointness -/

theorem digit_not_ws {c : Char} (h : isDigitChar c = true) : isWsChar c = false := by
  simp only [isDigitChar, Bool.and_eq_true, decide_eq_true_eq] at h
  simp only [isWsChar, Bool.or_eq_false_iff, beq_eq_false_iff_ne, ne_eq]
  omega

theorem word_not_ws {c : Char} (h : isWordChar c = true) : isWsChar c = false := by
  simp only [isWordChar, isDigitChar, Bool.or_eq_true, Bool.and_eq_true,
    decide_eq_true_eq, beq_iff_eq] at h
  simp only [isWsChar, Bool.or_eq_false_iff, beq_eq_false_iff_ne, ne_eq]
  omega

theorem ws_not_digit {c : Char} (h : isWsChar c = true) : isDigitChar c = false := by
  simp only [isWsChar, Bool.or_eq_true, beq_iff_eq] at h
  simp only [isDigitChar, Bool.and_eq_false_iff, decide_eq_false_iff_not]
  omega

theorem ws_not_word {c : Char} (h : isWsChar c = true) : isWordChar c = false := by
  simp only [isWsChar, Bool.or_eq_true, beq_iff_eq] at h
  simp only [isWordChar, isDigitChar, Bool.or_eq_false_iff, Bool.and_eq_false_iff,
    decide_eq_false_iff_not, beq_eq_false_iff_ne, ne_eq]
  omega

/-! ## C4 — `parseInterval` characterization -/

theorem parseIntervalChars_sound {l : List Char} {r : Nat}
    (h : parseIntervalChars l = some r) :
    ∃ a b c d e m,
      l = a ++ b ++ c ++ d ++ e ∧
      (∀ x ∈ a, isWsChar x = true) ∧
      b ≠ [] ∧ (∀ x ∈ b, isDigitChar x = true) ∧
      c ≠ [] ∧ (∀ x ∈ c, isWsChar x = true) ∧
      d ≠ [] ∧ (∀ x ∈ d, isWordChar x = true) ∧
      (∀ x ∈ e, isWsChar x = true) ∧
      INTERVALS (String.mk (d.map Char.toLower)) = some m ∧
      r = digitsToNat b * m := by
  simp only [parseIntervalChars] at h
  split at h
  next => exact absurd h (by simp)
  next hnum =>
  split at h
  next => exact absurd h (by simp)
  next hsp =>
  split at h
  next => exact absurd h (by simp)
  next hunit =>
  split at h
  next => exact absurd h (by simp)
  next hrest =>
  split at h
  next mult heq =>
    refine ⟨l.takeWhile isWsChar,
      (l.dropWhile isWsChar).takeWhile isDigitChar,
      ((l.dropWhile isWsChar).dropWhile isDigitChar).takeWhile isWsChar,
      (((l.dropWhile isWsChar).dropWhile isDigitChar).dropWhile isWsChar).takeWhile isWordChar,
      (((l.dropWhile isWsChar).dropWhile isDigitChar).dropWhile isWsChar).dropWhile isWordChar,
      mult, ?_, ?_, ?_, ?_, ?_, ?_, ?_, ?_, ?_, heq, ?_⟩
    · simp only [List.append_assoc, List.takeWhile_append_dropWhile]
    · exact fun x hx => List.all_eq_true.mp (List.all_takeWhile ..) x hx
    · simpa using hnum
    · exact fun x hx => List.all_eq_true.mp (List.all_takeWhile ..) x hx
    · simpa using hsp
    · exact fun x hx => List.all_eq_true.mp (List.all_takeWhile ..) x hx
    · simpa using hunit
    · exact fun x hx => List.all_eq_true.mp (List.all_takeWhile ..) x hx
    · simp only [Bool.not_eq_true', Bool.not_eq_false] at hrest
      exact fun x hx => List.all_eq_true.mp hrest x hx
    · exact (Option.some.injEq _ _ ▸ h).symm
  next => exact absurd h (by simp)

theorem parseIntervalChars_complete {a b c d e : List Char} {m : Nat}
    (haw : ∀ x ∈ a, isWsChar x = true)
    (hb : b ≠ []) (hbd : ∀ x ∈ b, isDigitChar x = true)
    (hc : c ≠ []) (hcw : ∀ x ∈ c, isWsChar x = true)
    (hd : d ≠ []) (hdw : ∀ x ∈ d, isWordChar x = true)
    (hew : ∀ x ∈ e, isWsChar x = true)
    (hm : INTERVALS (String.mk (d.map Char.toLower)) = some m) :
    parseIntervalChars (a ++ b ++ c ++ d ++ e) = some (digitsToNat b * m) := by
  have hheadB : ∀ x ∈ (b ++ (c ++ (d ++ e))).take 1, isWsChar x = false := by
    intro x hx
    have hxb : x ∈ b := by
      cases b with
      | nil => exact absurd rfl hb
      | cons y t =>
        simp only [List.cons_append, List.take_succ_cons, List.take_zero,
          List.mem_singleton] at hx
        simp [hx]
    exact digit_not_ws (hbd x hxb)
  have hheadC : ∀ x ∈ (c ++ (d ++ e)).take 1, isDigitChar x = false := by
    intro x hx
    have hxc : x ∈ c := by
      cases c with
      | nil => exact absurd rfl hc
      | cons y t =>
        simp only [List.cons_append, List.take_succ_cons, List.take_zero,
          List.mem_singleton] at hx
        simp [hx]
    exact ws_not_digit (hcw x hxc)
  have hheadD : ∀ x ∈ (d ++ e).take 1, isWsChar x = false := by
    intro x hx
    have hxd : x ∈ d := by
      cases d with
      | nil => exact absurd rfl hd
      | cons y t =>
        simp only [List.cons_append, List.take_succ_cons, List.take_zero,
          List.mem_singleton] at hx
        simp [hx]
    exact word_not_ws (hdw x hxd)
  have hheadE : ∀ x ∈ e.take 1, isWordChar x = false := by
    intro x hx
    exact ws_not_word (hew x (List.take_subset 1 e hx))
  have s1 := takeWhile_append_eq isWsChar a (b ++ (c ++ (d ++ e))) haw hheadB
  have s2 := takeWhile_append_eq isDigitChar b (c ++ (d ++ e)) hbd hheadC
  have s3 := takeWhile_append_eq isWsChar c (d ++ e) hcw hheadD
  have s4 := takeWhile_append_eq isWordChar d e hdw hheadE
  simp only [parseIntervalChars, List.append_assoc, s1.1, s1.2, s2.1, s2.2,
    s3.1, s3.2, s4.1, s4.2]
  rw [if_neg (by simpa using hb), if_neg (by simpa using hc), if_neg (by simpa using hd),
    if_neg (by simp [List.all_eq_true]; exact fun x hx => hew x hx)]
  rw [hm]

/-- C4: for every string of the shape optional whitespace, a non-negative
integer, whitespace, a unit word in {second, minute, hour, day} (singular
or plural, any case, as enumerated by `INTERVALS`) and optional trailing
whitespace, `parseInterval` returns the integer times the unit's length in
seconds; for every other string it returns `none`. -/
theorem parseInterval_iff_shape (s : String) (r : Nat) :
    parseInterval s = some r ↔ IntervalShape s r := by
  constructor
  · intro h
    obtain ⟨a, b, c, d, e, m, h1, h2, h3, h4, h5, h6, h7, h8, h9, h10, h11⟩ :=
      parseIntervalChars_sound h
    exact ⟨a, b, c, d, e, m, h1, h2, h3, h4, h5, h6, h7, h8, h9, h10, h11⟩
  · intro ⟨a, b, c, d, e, m, h1, h2, h3, h4, h5, h6, h7, h8, h9, h10, h11⟩
    have := parseIntervalChars_complete h2 h3 h4 h5 h6 h7 h8 h9 h10
    unfold parseInterval
    rw [h1, this, h11]

/-- Witness: `parseInterval "5 minutes" = some 300` through the
characterization. -/
theorem parseInterval_iff_shape_witness : parseInterval "5 minutes" = some 300 :=
  (parseInterval_iff_shape "5 minutes" 300).mpr
    ⟨[], [Char.ofNat 53], [Char.ofNat 32], "minutes".data, [], 60,
      by decide, by decide, by decide, by decide, by decide, by decide,
      by decide, by decide, by decide, by decide, by decide⟩


/-! ## Arithmetic facts about the day model -/

theorem dayStart_le (x : Nat) : dayStart x ≤ x := by
  unfold dayStart msPerDay
  omega

theorem lt_dayStart_add_day (x : Nat) : x < dayStart x + msPerDay := by
  unfold dayStart msPerDay
  omega

theorem dayStart_add_mul (x k : Nat) :
    dayStart (x + k * msPerDay) = dayStart x + k * msPerDay := by
  unfold dayStart msPerDay
  omega

theorem applyAfter_ge (task : ScheduledTask) (checkDay : Nat) :
    checkDay ≤ applyAfter task checkDay := by
  cases h : task.after with
  | none => simp [applyAfter, h]
  | some p =>
    cases p with
    | mk ah am =>
      simp only [applyAfter, h]
      split <;> omega

theorem dayCandidate_gt (earliest off t : Nat) (hlt : t < earliest) :
    t < dayCandidate earliest off := by
  unfold dayCandidate
  split
  · exact hlt
  · rename_i hoff
    rw [dayStart_add_mul]
    have h1 := lt_dayStart_add_day earliest
    have h2 : msPerDay ≤ off * msPerDay :=
      Nat.le_mul_of_pos_left msPerDay (Nat.pos_of_ne_zero hoff)
    omega

/-! ## Structure of the `getNextRunTime` day walk -/

theorem dayWalk_ge_now {task : ScheduledTask} {now earliest r : Nat} :
    ∀ {fuel off : Nat}, dayWalk task now earliest off fuel = some r → now ≤ r := by
  intro fuel
  induction fuel with
  | zero => intro off h; simp [dayWalk] at h
  | succ n ih =>
    intro off h
    simp only [dayWalk] at h
    split at h
    · exact ih h
    · split at h
      · exact ih h
      · split at h
        · simp at h; omega
        · rename_i hnlt
          simp only [Option.some.injEq] at h
          omega

theorem dayWalk_gt {task : ScheduledTask} {now earliest t r : Nat} (hlt : t < earliest) :
    ∀ {fuel off : Nat}, dayWalk task now earliest off fuel = some r → t < r := by
  intro fuel
  induction fuel with
  | zero => intro off h; simp [dayWalk] at h
  | succ n ih =>
    intro off h
    simp only [dayWalk] at h
    split at h
    · exact ih h
    · split at h
      · exact ih h
      · have hcd := dayCandidate_gt earliest off t hlt
        have hge := applyAfter_ge task (dayCandidate earliest off)
        split at h
        · rename_i hlt2
          simp only [Option.some.injEq] at h
          omega
        · rename_i hnlt
          simp only [Option.some.injEq] at h
          omega

/-- Successful `getNextRunTime` results never precede the current time. -/
theorem getNextRunTime_ge_now {task : ScheduledTask} {now r : Nat}
    (h : getNextRunTime task now = some r) : now ≤ r := by
  unfold getNextRunTime at h
  split at h
  · split at h
    · exact absurd h (by simp)
    · split at h
      · exact absurd h (by simp)
      · exact dayWalk_ge_now h
  · exact dayWalk_ge_now h

/-! ## C5 — null propagation in `getNextRunTime` -/

/-- C5 counterexample: a task with no recurrence field at all (`repeat`
absent; this schema has no once-daily flag) does not yield `none` — the
daily branch is the default and returns the current instant; the same
happens for the falsy empty `repeat` string, which is unparsable yet does
not yield `none` either. -/
theorem getNextRunTime_no_recurrence_cex :
    getNextRunTime { } 1000 = some 1000 ∧
    getNextRunTime { repeat_ := some "" } 1000 = some 1000 := by
  constructor <;> decide

/-- C5 (amended): a task with a truthy (nonempty) `repeat` string that
fails to parse — or parses to 0, which is falsy — yields `none` without
throwing; a task with no truthy `repeat` is treated as once-daily by
default, and with no other constraints and no prior run it yields the
current instant rather than `none`. -/
theorem getNextRunTime_null_propagation (task : ScheduledTask) (now : Nat) :
    (∀ s, task.repeat_ = some s → s ≠ "" →
      (parseInterval s = none ∨ parseInterval s = some 0) →
      getNextRunTime task now = none) ∧
    (task.repeat_ = none → task.lastRunTime = 0 → task.on_ = none →
      task.dayOfMonth = none → task.after = none → task.before = none →
      getNextRunTime task now = some now) := by
  constructor
  · intro s hrep hne hparse
    have hmt : s.isEmpty = false := by
      cases he : s.isEmpty
      · rfl
      · exact absurd ((String.isEmpty_iff s).mp he) hne
    unfold getNextRunTime
    rw [if_pos (by simp [strTruthy, hrep, hmt])]
    rw [hrep]
    rcases hparse with hp | hp <;> simp [hp]
  · intro h0 h1 h2 h3 h4 h5
    unfold getNextRunTime
    rw [if_neg (by simp [strTruthy, h0])]
    rw [h1]
    simp only [ne_eq, not_true_eq_false, if_false, reduceIte]
    simp [dayWalk, dayCandidate, checkDayConditions, applyAfter, rejectedByBefore,
      h2, h3, h4, h5, MAX_DAYS_AHEAD]

/-- Witness for C5 (amended), at an unparsable `repeat` string and at a
task with no recurrence field. -/
theorem getNextRunTime_null_propagation_witness :
    getNextRunTime { repeat_ := some "abc" } 500 = none ∧
    getNextRunTime { } 500 = some 500 :=
  ⟨(getNextRunTime_null_propagation { repeat_ := some "abc" } 500).1 "abc" rfl
      (by decide) (Or.inl (by decide)),
   (getNextRunTime_null_propagation { } 500).2 rfl rfl rfl rfl rfl rfl⟩

/-! ## C2 — past-candidate clamping in repeat-every mode -/

/-- C2 counterexample: with `repeat = "1 second"` and a long-stale
`lastRunTime`, `getNextRunTime` returns exactly `now` — a fire exactly at
`now`, not the claimed `now + interval`. -/
theorem getNextRunTime_clamp_to_now_cex :
    getNextRunTime { repeat_ := some "1 second", lastRunTime := 1000 } 1000000000
      = some 1000000000 ∧
    (1000000000 : Nat) ≠ 1000000000 + 1000 := by
  constructor
  · decide
  · decide

/-- C2 (amended): with a set last run and a past candidate, the engine-side
`retimeEveryTask` schedules `candidate = lastRun + interval` and clamps a
past candidate forward to `now + interval`; the calculator-side
`getNextRunTime` takes `candidate = lastRunTime + interval` and clamps a
past candidate to exactly `now` (one prompt fire at `now`, not N backlog
fires). -/
theorem pastCandidate_clamp :
    (∀ (task : SchedulerService.ScheduleTask) (st : SchedulerService.TaskState)
       (now i lr : Nat) (es : String),
      task.every = some es → es ≠ "" → parseInterval es = some i → i ≠ 0 →
      SchedulerService.checkTimeWindowConditions task now = true →
      st.lastRun = some lr → lr ≠ 0 → lr + i < now →
      (SchedulerService.retimeEveryTask task st now).nextRun = some (now + i)) ∧
    (∀ (task : ScheduledTask) (now i : Nat) (rs : String),
      task.repeat_ = some rs → rs ≠ "" → parseInterval rs = some i → i ≠ 0 →
      task.lastRunTime ≠ 0 → task.on_ = none → task.dayOfMonth = none →
      task.after = none → task.before = none →
      task.lastRunTime + i * 1000 < now →
      getNextRunTime task now = some now) := by
  constructor
  · intro task st now i lr es hev hne hpar hi hwin hlr hlr0 hpast
    unfold SchedulerService.retimeEveryTask
    rw [if_pos hwin, hev]
    simp only [Option.getD_some, hpar]
    rw [if_neg hi]
    simp only [numTruthy, hlr, bne_iff_ne, ne_eq, hlr0, not_false_eq_true, if_true,
      Option.getD_some]
    rw [if_pos (by omega)]
  · intro task now i rs hrep hne hpar hi hlast h2 h3 h4 h5 hpast
    have hmt : rs.isEmpty = false := by
      cases he : rs.isEmpty
      · rfl
      · exact absurd ((String.isEmpty_iff rs).mp he) hne
    unfold getNextRunTime
    rw [if_pos (by simp [strTruthy, hrep, hmt])]
    rw [hrep]
    simp only [Option.getD_some, hpar]
    rw [if_neg hi, if_pos hlast]
    simp [dayWalk, dayCandidate, checkDayConditions, applyAfter, rejectedByBefore,
      h2, h3, h4, h5, MAX_DAYS_AHEAD, hpast]

/-- Witness for C2 (amended) at concrete inputs on both sides. -/
theorem pastCandidate_clamp_witness :
    (SchedulerService.retimeEveryTask { every := some "1 second" }
      { lastRun := some 100 } 200).nextRun = some 201 ∧
    getNextRunTime { repeat_ := some "1 second", lastRunTime := 1000 } 1000000000
      = some 1000000000 :=
  ⟨pastCandidate_clamp.1 { every := some "1 second" } { lastRun := some 100 }
      200 1 100 "1 second" rfl (by decide) (by decide) (by decide) (by decide)
      rfl (by decide) (by decide),
   pastCandidate_clamp.2 { repeat_ := some "1 second", lastRunTime := 1000 }
      1000000000 1 "1 second" rfl (by decide) (by decide) (by decide) (by decide)
      rfl rfl rfl rfl (by decide)⟩

/-! ## C3 — monotonicity of `getNextRunTime` -/

/-- C3: for a fixed task, if `getNextRunTime` returns an instant `t`
(computed at a positive current time), recomputing it with `lastRunTime`
set to `t` never yields an instant at or before `t`, in both the
repeat-every and the once-daily branch. -/
theorem getNextRunTime_monotone (task : ScheduledTask) (now1 now2 t r : Nat)
    (h0 : 0 < now1)
    (h1 : getNextRunTime task now1 = some t)
    (h2 : getNextRunTime { task with lastRunTime := t } now2 = some r) :
    t < r := by
  have ht : 0 < t := lt_of_lt_of_le h0 (getNextRunTime_ge_now h1)
  have hfield : ({ task with lastRunTime := t } : ScheduledTask).lastRunTime = t := rfl
  unfold getNextRunTime at h2
  split at h2
  · split at h2
    · exact absurd h2 (by simp)
    · rename_i i hpar
      split at h2
      · exact absurd h2 (by simp)
      · rename_i hi
        split at h2
        · refine dayWalk_gt ?_ h2
          rw [hfield]
          have : 1 ≤ i := Nat.one_le_iff_ne_zero.mpr hi
          omega
        · rename_i hff
          rw [hfield] at hff
          omega
  · split at h2
    · refine dayWalk_gt ?_ h2
      rw [hfield]
      have e1 : dayStart (t + msPerDay) = dayStart t + msPerDay := by
        have := dayStart_add_mul t 1
        simpa using this
      have e2 := lt_dayStart_add_day t
      omega
    · rename_i hff
      rw [hfield] at hff
      omega

/-- Witness for C3: a once-daily task returning `t = 1000`, recomputed with
`lastRunTime = 1000`, yields the next midnight, strictly after `t`. -/
theorem getNextRunTime_monotone_witness :
    getNextRunTime { } 1000 = some 1000 ∧
    getNextRunTime { lastRunTime := 1000 } 1000 = some 86400000 ∧
    (1000 : Nat) < 86400000 :=
  ⟨by decide, by decide,
   getNextRunTime_monotone { } 1000 1000 1000 86400000 (by decide) (by decide)
     (by decide)⟩

/-! ## C6 — time-of-day window comparisons -/

/-- C6 counterexample: in `getNextRunTime`'s day walk the `before` bound is
compared at second granularity (seconds set to 0 on the bound), so a
candidate at exactly the bound's hour:minute (10:00) but with 30 seconds
is rejected for that day — the repeat-every candidate 122430000 lies at
10:00:30 of day 1, yet the walk skips to the next midnight 172800000. -/
theorem getNextRunTime_before_second_granularity_cex :
    hourOf 122430000 = 10 ∧ minuteOf 122430000 = 0 ∧
    getNextRunTime
      { repeat_ := some "1 hour", lastRunTime := 118830000, before := some (10, 0) }
      86400000 = some 172800000 := by
  refine ⟨by decide, by decide, by decide⟩

/-- C6 (amended): the polling engine's `checkTimeWindowConditions` is
inclusive on both ends at hour:minute granularity — any moment whose
hour:minute equals the bound passes (the `to` bound is set to second 59,
the `from` bound to second 0) — and absent bounds impose no restriction;
the calculator-side `before` check in `getNextRunTime` is, by contrast,
second-granular (see the counterexample). -/
theorem checkTimeWindowConditions_hm_inclusive
    (task : SchedulerService.ScheduleTask) (now : Nat) :
    (task.from_ = none → task.to_ = none →
      SchedulerService.checkTimeWindowConditions task now = true) ∧
    (∀ h m, task.from_ = none → task.to_ = some (h, m) →
      SchedulerService.hourOfSec now = h → SchedulerService.minuteOfSec now = m →
      SchedulerService.checkTimeWindowConditions task now = true) ∧
    (∀ h m, task.to_ = none → task.from_ = some (h, m) →
      SchedulerService.hourOfSec now = h → SchedulerService.minuteOfSec now = m →
      SchedulerService.checkTimeWindowConditions task now = true) := by
  refine ⟨?_, ?_, ?_⟩
  · intro h1 h2
    unfold SchedulerService.checkTimeWindowConditions
    rw [h1, h2]
    rfl
  · intro h m h1 h2 hh hm
    unfold SchedulerService.checkTimeWindowConditions
    rw [h1, h2]
    simp only [Bool.true_and, decide_eq_true_eq]
    subst hh hm
    unfold SchedulerService.setHMSsec SchedulerService.daySec
      SchedulerService.hourOfSec SchedulerService.minuteOfSec SchedulerService.secPerDay
    omega
  · intro h m h1 h2 hh hm
    unfold SchedulerService.checkTimeWindowConditions
    rw [h1, h2]
    simp only [Bool.and_true, decide_eq_true_eq]
    subst hh hm
    unfold SchedulerService.setHMSsec SchedulerService.daySec
      SchedulerService.hourOfSec SchedulerService.minuteOfSec SchedulerService.secPerDay
    omega

/-- Witness for C6 (amended): 10:00:30 passes both a `to = 10:00` bound and
a `from = 10:00` bound. -/
theorem checkTimeWindowConditions_hm_inclusive_witness :
    SchedulerService.checkTimeWindowConditions { to_ := some (10, 0) } 36030 = true ∧
    SchedulerService.checkTimeWindowConditions { from_ := some (10, 0) } 36030 = true :=
  ⟨(checkTimeWindowConditions_hm_inclusive { to_ := some (10, 0) } 36030).2.1
      10 0 rfl rfl (by decide) (by decide),
   (checkTimeWindowConditions_hm_inclusive { from_ := some (10, 0) } 36030).2.2
      10 0 rfl rfl (by decide) (by decide)⟩

/-! ## C10 — weekday eligibility is substring containment -/

theorem containsSub_iff_infix (needle : List Char) :
    ∀ l : List Char, containsSub needle l = true ↔ needle <:+: l := by
  intro l
  induction l with
  | nil => simp [containsSub, List.isEmpty_iff]
  | cons x xs ih =>
    simp only [containsSub, Bool.or_eq_true, List.isPrefixOf_iff_prefix, ih,
      List.infix_cons_iff]

/-- C10: with `on` set (nonempty) and no day-of-month constraint, a day is
weekday-eligible exactly when the lowercased `on` string contains the
moment's three-letter lowercase weekday abbreviation as a substring — so
any string containing the abbreviation anywhere qualifies. -/
theorem checkDayConditions_weekday_substring (task : ScheduledTask) (now : Nat)
    (s : String) (h1 : task.on_ = some s) (h2 : s ≠ "") (h3 : task.dayOfMonth = none) :
    (checkDayConditions task now = true ↔
      (weekdayAbbrev now).data <:+: (lowerStr s).data) := by
  have hmt : s.isEmpty = false := by
    cases he : s.isEmpty
    · rfl
    · exact absurd ((String.isEmpty_iff s).mp he) h2
  unfold checkDayConditions
  rw [h1, h3]
  simp [jsIncludes, hmt, containsSub_iff_infix]

/-- Witness for C10: `on = "saturn"` makes a Saturday eligible and
`on = "Monday"` makes a Monday eligible; a Tuesday under `on = "monday"`
is not eligible. -/
theorem checkDayConditions_weekday_substring_witness :
    checkDayConditions { on_ := some "saturn" } 172800000 = true ∧
    checkDayConditions { on_ := some "Monday" } 345600000 = true ∧
    checkDayConditions { on_ := some "monday" } 432000000 = false :=
  ⟨(checkDayConditions_weekday_substring { on_ := some "saturn" } 172800000 "saturn"
      rfl (by decide) rfl).mpr (by decide),
   (checkDayConditions_weekday_substring { on_ := some "Monday" } 345600000 "Monday"
      rfl (by decide) rfl).mpr (by decide),
   by decide⟩

/-! ## C1 — no overlapping runs for non-`several` tasks -/

theorem retimeEveryTask_isRunning (task : SchedulerService.ScheduleTask)
    (st : SchedulerService.TaskState) (now : Nat) :
    (SchedulerService.retimeEveryTask task st now).isRunning = st.isRunning := by
  unfold SchedulerService.retimeEveryTask
  repeat' split
  all_goals rfl

theorem retimeSpacedTask_isRunning (task : SchedulerService.ScheduleTask)
    (st : SchedulerService.TaskState) (now : Nat) :
    (SchedulerService.retimeSpacedTask task st now).isRunning = st.isRunning := by
  unfold SchedulerService.retimeSpacedTask
  repeat' split
  all_goals rfl

theorem retimeOnceTask_isRunning (task : SchedulerService.ScheduleTask)
    (st : SchedulerService.TaskState) (now : Nat) :
    (SchedulerService.retimeOnceTask task st now).isRunning = st.isRunning := by
  unfold SchedulerService.retimeOnceTask
  dsimp only
  repeat' split
  all_goals rfl

theorem retimeTask_isRunning (task : SchedulerService.ScheduleTask)
    (st : SchedulerService.TaskState) (now : Nat) :
    (SchedulerService.retimeTask task st now).isRunning = st.isRunning := by
  unfold SchedulerService.retimeTask
  repeat' split
  · exact retimeEveryTask_isRunning ..
  · exact retimeSpacedTask_isRunning ..
  · exact retimeOnceTask_isRunning ..
  · rfl

theorem runTaskStart_isRunning (task : SchedulerService.ScheduleTask)
    (st : SchedulerService.TaskState) (now : Nat) :
    (SchedulerService.runTaskStart task st now).isRunning = true := by
  unfold SchedulerService.runTaskStart
  repeat' split
  all_goals rfl

/-- A tick while the task is running (overlap disallowed) is a stutter. -/
theorem tickTask_stutter (task : SchedulerService.ScheduleTask)
    (s : SchedulerService.SysState) (now : Nat)
    (hsev : task.several = false) (hr : s.st.isRunning = true) :
    SchedulerService.tickTask task s now = s := by
  unfold SchedulerService.tickTask
  rw [hr, hsev]
  rfl

theorem stepEvent_preserves_coupled (task : SchedulerService.ScheduleTask)
    (hsev : task.several = false) (s : SchedulerService.SysState)
    (h : SchedulerService.Coupled s) (e : SchedulerService.SchedEvent) :
    SchedulerService.Coupled (SchedulerService.stepEvent task s e) := by
  cases e with
  | tick now =>
    show SchedulerService.Coupled (SchedulerService.tickTask task s now)
    cases hr : s.st.isRunning with
    | true =>
      rw [tickTask_stutter task s now hsev hr]
      exact h
    | false =>
      have h0 : s.inflight = 0 := by
        unfold SchedulerService.Coupled at h
        rw [h, hr]
        rfl
      have key : ∀ st1 : SchedulerService.TaskState, st1.isRunning = false →
          SchedulerService.Coupled (
            if numTruthy st1.nextRun && decide (st1.nextRun.getD 0 ≤ now) then
              if SchedulerService.checkTaskConditions task now then
                { st := SchedulerService.runTaskStart task
                    { st1 with lastRun := some now, nextRun := none } now,
                  inflight := s.inflight + 1 }
              else
                { s with
                  st := SchedulerService.retimeTask task ({ st1 with nextRun := none }) now }
            else { s with st := st1 }) := by
        intro st1 h1
        unfold SchedulerService.Coupled
        split
        · split
          · rw [runTaskStart_isRunning, h0]
            rfl
          · have h2 : (SchedulerService.retimeTask task
                ({ st1 with nextRun := none }) now).isRunning = false := by
              rw [retimeTask_isRunning]
              exact h1
            dsimp only
            rw [h2, h0]
            rfl
        · dsimp only
          rw [h1, h0]
          rfl
      have hc : (s.st.isRunning && !task.several) = false := by
        rw [hr]
        rfl
      have hst1 : (if (!numTruthy s.st.nextRun) = true then
          SchedulerService.retimeTask task s.st now else s.st).isRunning = false := by
        split
        · rw [retimeTask_isRunning]
          exact hr
        · exact hr
      unfold SchedulerService.tickTask
      split
      · rename_i hx
        rw [hc] at hx
        exact absurd hx (by simp)
      · exact key _ hst1
  | finish now =>
    show SchedulerService.Coupled (SchedulerService.finishTask task s now)
    unfold SchedulerService.Coupled at h ⊢
    unfold SchedulerService.finishTask
    split
    · exact h
    · rename_i hz
      have hrun : s.st.isRunning = true := by
        cases hb : s.st.isRunning with
        | true => rfl
        | false =>
          rw [h, hb] at hz
          exact absurd rfl hz
      have hfin : (if strTruthy task.spaced = true then
          SchedulerService.retimeTask task
            { s.st with isRunning := false, startTime := none, maxRunTime := none } now
          else
            { s.st with isRunning := false, startTime := none, maxRunTime := none
              }).isRunning = false := by
        split
        · rw [retimeTask_isRunning]
        · rfl
      dsimp only
      rw [hfin, h, hrun]
      rfl

theorem runEvents_coupled (task : SchedulerService.ScheduleTask)
    (hsev : task.several = false) (evs : List SchedulerService.SchedEvent) :
    SchedulerService.Coupled (SchedulerService.runEvents task evs) := by
  have main : ∀ (l : List SchedulerService.SchedEvent) (s : SchedulerService.SysState),
      SchedulerService.Coupled s →
      SchedulerService.Coupled (l.foldl (SchedulerService.stepEvent task) s) := by
    intro l
    induction l with
    | nil => intro s hs; exact hs
    | cons e tl ih =>
      intro s hs
      exact ih _ (stepEvent_preserves_coupled task hsev s hs e)
  exact main evs SchedulerService.initSys rfl

/-- C1: for a task with `several = false`, over every sequence of polling
ticks and run completions from the initial state, at most one run is in
flight (so no two runs of the task are ever concurrently running), and a
tick arriving while the task is running neither changes the state nor
launches the runner; likewise, the watch-based scheduler's reconciliation
pass leaves a `running` execution entry untouched (no second entry, no new
timer). -/
theorem no_overlap_invariant (task : SchedulerService.ScheduleTask)
    (hsev : task.several = false) (evs : List SchedulerService.SchedEvent) :
    (SchedulerService.runEvents task evs).inflight ≤ 1 ∧
    ((SchedulerService.runEvents task evs).st.isRunning = false →
      (SchedulerService.runEvents task evs).inflight = 0) ∧
    (∀ now, (SchedulerService.runEvents task evs).st.isRunning = true →
      SchedulerService.tickTask task (SchedulerService.runEvents task evs) now
        = SchedulerService.runEvents task evs) ∧
    (∀ (t2 : ScheduledTask) (now : Nat) (e : WatchScheduler.ExecutionScheduleEntry),
      e.status = .running → WatchScheduler.watchEntry t2 now (some e) = some e) := by
  have hc := runEvents_coupled task hsev evs
  unfold SchedulerService.Coupled at hc
  refine ⟨?_, ?_, ?_, ?_⟩
  · rw [hc]
    split <;> omega
  · intro hrun
    rw [hc, hrun]
    rfl
  · intro now hrun
    exact tickTask_stutter task _ now hsev hrun
  · intro t2 now e he
    simp [WatchScheduler.watchEntry, he]

/-- Witness for C1 at a concrete task and event trace. -/
theorem no_overlap_invariant_witness :
    (SchedulerService.runEvents { every := some "1 second" }
      [.tick 5, .tick 6, .finish 7]).inflight ≤ 1 :=
  (no_overlap_invariant { every := some "1 second" } rfl
    [.tick 5, .tick 6, .finish 7]).1

/-! ## C7 — overrun reporting -/

/-- C7: at a concrete failing input, the overrun report is NOT emitted even
though the elapsed runtime (7200 s) exceeds the parsed `noLongerThan`
ceiling (3600 s). `runTask` stores `maxRunTime = startTime + maxRunSeconds`
(per its own doc comment, the timestamp after which the task should be
terminated), but the `runTasks` check compares the ELAPSED time
`now - startTime` against that absolute deadline, so the report condition
is never met at realistic times; the tick is otherwise a no-op, leaving
the run in flight. -/
theorem overrun_not_reported_cex :
    (SchedulerService.runTaskStart { noLongerThan := some "1 hour" } { }
      1700000000).maxRunTime = some 1700003600 ∧
    1700007200 - 1700000000 > 3600 ∧
    SchedulerService.tickOverrunReport { noLongerThan := some "1 hour" }
      (SchedulerService.runTaskStart { noLongerThan := some "1 hour" } { } 1700000000)
      1700007200 = false ∧
    SchedulerService.tickTask { noLongerThan := some "1 hour" }
      { st := SchedulerService.runTaskStart { noLongerThan := some "1 hour" } { }
          1700000000,
        inflight := 1 } 1700007200
      = { st := SchedulerService.runTaskStart { noLongerThan := some "1 hour" } { }
            1700000000,
          inflight := 1 } := by
  refine ⟨by decide, by decide, by decide, by decide⟩

/-! ## Association-list lemmas -/

theorem lookupA_eraseA_self {α : Type} (l : List (String × α)) (k : String) :
    lookupA (eraseA l k) k = none := by
  induction l with
  | nil => rfl
  | cons p t ih =>
    by_cases hp : p.1 == k
    · simp only [eraseA, List.filter_cons, bne, hp, Bool.not_true, if_false, reduceIte]
      exact ih
    · have hp' : (p.1 == k) = false := Bool.eq_false_iff.mpr hp
      simp only [eraseA, List.filter_cons, bne, hp', Bool.not_false, if_true, reduceIte]
      simp only [lookupA, List.find?_cons, hp']
      exact ih

theorem lookupA_setA_self {α : Type} (l : List (String × α)) (k : String) (v : α) :
    lookupA (setA l k v) k = some v := by
  induction l with
  | nil => simp [setA, lookupA, List.find?]
  | cons p t ih =>
    by_cases hp : (p.1 == k) = true
    · have hfind : ((p :: t).find? fun q => q.1 == k).isSome = true := by
        rw [List.find?_cons, hp]
        rfl
      have e1 : setA (p :: t) k v
          = (if (p.1 == k) = true then (k, v) else p)
            :: (t.map fun q => if (q.1 == k) = true then (k, v) else q) := by
        unfold setA
        rw [if_pos hfind, List.map_cons]
      rw [e1, if_pos hp]
      unfold lookupA
      rw [List.find?_cons, beq_self_eq_true]
      rfl
    · have hp' : (p.1 == k) = false := Bool.eq_false_iff.mpr hp
      have e1 : setA (p :: t) k v = p :: setA t k v := by
        unfold setA
        rw [List.find?_cons, hp']
        cases hf : (t.find? fun q => q.1 == k).isSome with
        | true => simp only [reduceIte, List.map_cons, hp', Bool.false_eq_true, if_false]
        | false => simp only [reduceIte, Bool.false_eq_true, if_false, List.cons_append]
      rw [e1]
      unfold lookupA
      rw [List.find?_cons, hp']
      exact ih

/-! ## C8 — task removal -/

/-- C8 counterexample: removing an existing task whose execution entry is
`pending` but holds no timer (reachable: `watchTasks` re-arms a pending
entry with `timer = undefined` when the recomputed due time is null)
deletes the task but leaves the execution entry behind. -/
theorem removeTask_leaves_timerless_entry_cex :
    (WatchScheduler.removeTask "a"
      { tasks := [("a", { })],
        exec := [("a", { nextRunTime := none, status := .pending, hasTimer := false })],
        history := [] }).2 = none ∧
    lookupA (WatchScheduler.removeTask "a"
      { tasks := [("a", { })],
        exec := [("a", { nextRunTime := none, status := .pending, hasTimer := false })],
        history := [] }).1.exec "a"
      = some { nextRunTime := none, status := .pending, hasTimer := false } ∧
    lookupA (WatchScheduler.removeTask "a"
      { tasks := [("a", { })],
        exec := [("a", { nextRunTime := none, status := .pending, hasTimer := false })],
        history := [] }).1.tasks "a" = none := by
  refine ⟨by decide, by decide, by decide⟩

/-- C8 (amended): removing an existing task whose `pending` execution entry
holds an armed timer cancels it and deletes both the execution entry and
the task; a `pending` entry without a timer is left in the execution state
while the task is still deleted (see the counterexample); removing an
unknown task name throws `Task not found` before any mutation, returning
the state unchanged. -/
theorem removeTask_spec (s : WatchScheduler.SchedState) (name : String) :
    (∀ tk e, lookupA s.tasks name = some tk →
      lookupA s.exec name = some e → e.status = .pending → e.hasTimer = true →
      (WatchScheduler.removeTask name s).2 = none ∧
      lookupA (WatchScheduler.removeTask name s).1.exec name = none ∧
      lookupA (WatchScheduler.removeTask name s).1.tasks name = none) ∧
    (lookupA s.tasks name = none →
      WatchScheduler.removeTask name s = (s, some ("Task not found: " ++ name))) := by
  constructor
  · intro tk e htk he hst hti
    unfold WatchScheduler.removeTask
    rw [htk]
    dsimp only
    simp only [he, hti, if_true, reduceIte]
    exact ⟨trivial, lookupA_eraseA_self .., lookupA_eraseA_self ..⟩
  · intro h
    unfold WatchScheduler.removeTask
    rw [h]

/-- Witness for C8 (amended): both conjuncts at concrete states. -/
theorem removeTask_spec_witness :
    ((WatchScheduler.removeTask "a"
      { tasks := [("a", { })],
        exec := [("a", { nextRunTime := some 5, status := .pending, hasTimer := true })],
        history := [] }).2 = none ∧
     lookupA (WatchScheduler.removeTask "a"
      { tasks := [("a", { })],
        exec := [("a", { nextRunTime := some 5, status := .pending, hasTimer := true })],
        history := [] }).1.exec "a" = none ∧
     lookupA (WatchScheduler.removeTask "a"
      { tasks := [("a", { })],
        exec := [("a", { nextRunTime := some 5, status := .pending, hasTimer := true })],
        history := [] }).1.tasks "a" = none) ∧
    WatchScheduler.removeTask "b" { tasks := [("a", { })] }
      = ({ tasks := [("a", { })] }, some "Task not found: b") :=
  ⟨(removeTask_spec
      { tasks := [("a", { })],
        exec := [("a", { nextRunTime := some 5, status := .pending, hasTimer := true })],
        history := [] } "a").1 { } { nextRunTime := some 5, status := .pending, hasTimer := true }
      rfl rfl rfl rfl,
   (removeTask_spec { tasks := [("a", { })] } "b").2 rfl⟩

/-! ## C9 — execution history -/

set_option maxRecDepth 8000 in
/-- C9 counterexample: after 51 completions of the same task the stored
per-task history holds 51 records — it is not bounded to the most recent
50 (only the display layer slices the last 50). -/
theorem history_not_bounded_50_cex :
    50 < ((lookupA (WatchScheduler.finishN "a" 7 51 { }).history "a").getD []).length := by
  decide

/-- C9 (amended): each task's execution history is append-only and
unbounded in storage: every run completion appends exactly one record —
with the entry's start time (0 when the entry is gone), the completion
time, the outcome and the message — to the end of that task's history;
no completion removes or rewrites earlier records, and nothing trims the
stored list (the `/schedule` display separately shows only the most
recent 50). -/
theorem handleTaskFinished_appends (s : WatchScheduler.SchedState)
    (name : String) (status : WatchScheduler.HistStatus) (message : String) (now : Nat) :
    (lookupA (WatchScheduler.handleTaskFinished name status message now s).history
      name).getD []
      = (lookupA s.history name).getD []
        ++ [{ startTime := ((lookupA s.exec name).bind fun e => e.startTime).getD 0,
              endTime := now, status := status, message := message }] := by
  unfold WatchScheduler.handleTaskFinished
  dsimp only
  rw [lookupA_setA_self]
  rfl
